import Mathlib

/-!
Verification development for the FolderSynchronizer sync engine.

The Go source is embedded shallowly:

* paths are `String`s with `/` as separator (the Unix build of the code);
* the filesystem is an association list from path to `FileInfo`
  (byte contents plus a modification time in nanoseconds);
* the external glob library (`doublestar.PathMatch`) is an uninterpreted
  parameter `pathMatch : String → String → Bool` threaded through the
  filter functions, exactly where the source calls it;
* SHA-256 (`calculateFileHash`) is modelled as comparison of the byte
  contents themselves, i.e. the digest is treated as injective;
* I/O failures are injected through explicit failure plans where a claim
  is about error behaviour.
-/

/-- Association-list lookup keyed by path name, the model of a directory
tree or registry map. -/
def lookupKV {α : Type} : List (String × α) → String → Option α
  | [], _ => none
  | e :: rest, k => if e.1 = k then some e.2 else lookupKV rest k

/-- Remove every entry with the given key. -/
def eraseKV {α : Type} : List (String × α) → String → List (String × α)
  | [], _ => []
  | e :: rest, k => if e.1 = k then eraseKV rest k else e :: eraseKV rest k

/-- Set the value at a key (insert-or-replace). -/
def setKV {α : Type} (l : List (String × α)) (k : String) (v : α) : List (String × α) :=
  (k, v) :: eraseKV l k

/-- Model of Go `filepath.Ext`: scan the path backwards; stop at a path
separator; return the suffix from the last dot of the final element,
or the empty string when there is none.  The scan is over the reversed
character list, accumulating the suffix seen so far. -/
def goExtAux : List Char → List Char → Option String
  | [], _ => none
  | c :: rest, acc =>
    if c = '/' then none
    else if c = '.' then some (String.mk (c :: acc))
    else goExtAux rest (c :: acc)

/-- Go `filepath.Ext` over slash-separated paths. -/
def filepathExt (p : String) : String :=
  (goExtAux p.data.reverse []).getD ""

/-- Go `strings.ToLower`, character by character (the extension entries
and paths of interest are ASCII). -/
def strToLower (s : String) : String := String.mk (s.data.map Char.toLower)

/-- White space as recognised by Go `strings.TrimSpace` on ASCII input. -/
def isSpaceChar (c : Char) : Bool := c = ' ' || c = '\t' || c = '\n' || c = '\r'

/-- Go `strings.TrimSpace`, dropping white space from both ends. -/
def strTrim (s : String) : String :=
  String.mk (((s.data.dropWhile isSpaceChar).reverse.dropWhile isSpaceChar).reverse)

/-- Go `strings.HasPrefix(s, ".")`: the first character is a dot. -/
def startsWithDot (s : String) : Bool :=
  match s.data with
  | c :: _ => c = '.'
  | [] => false

/-- Go `filepath.ToSlash`: on the Unix build the separator is already
`/`, so the function is the identity. -/
def toSlash (p : String) : String := p

/-- Model of `core.MatchesInclude` (filters.go): an empty include list
matches everything, otherwise the lowercased file extension must equal
some lowercased entry. -/
def MatchesInclude (extensions : List String) (filePath : String) : Bool :=
  if extensions.isEmpty then true
  else
    let fileExt := strToLower (filepathExt filePath)
    extensions.any (fun allowedExt => strToLower allowedExt = fileExt)

/-- Model of `core.MatchesExclude` (filters.go): some glob pattern matches
the slash-normalized path.  `pathMatch` stands for `doublestar.PathMatch`. -/
def MatchesExclude (pathMatch : String → String → Bool) (globs : List String)
    (filePath : String) : Bool :=
  if globs.isEmpty then false
  else globs.any (fun pattern => pathMatch pattern (toSlash filePath))

/-- Model of `core.MatchesAnyGlob` (filters.go); the body coincides with
`MatchesExclude` in the source as well. -/
def MatchesAnyGlob (pathMatch : String → String → Bool) (globs : List String)
    (filePath : String) : Bool :=
  if globs.isEmpty then false
  else globs.any (fun pattern => pathMatch pattern (toSlash filePath))

/-- Model of `core.ShouldIncludeFile` (filters.go): include iff the
extension filter accepts and no exclude glob matches. -/
def ShouldIncludeFile (pathMatch : String → String → Bool)
    (includeExtensions excludeGlobs : List String) (filePath : String) : Bool :=
  if !MatchesInclude includeExtensions filePath then false
  else if MatchesExclude pathMatch excludeGlobs filePath then false
  else true

/-- Model of `core.ShouldTriggerHook` (filters.go): trigger when both
filter lists are empty, or the non-empty extension list matches, or the
non-empty glob list matches. -/
def ShouldTriggerHook (pathMatch : String → String → Bool)
    (hookExtensions hookGlobs : List String) (filePath : String) : Bool :=
  if hookExtensions.isEmpty && hookGlobs.isEmpty then true
  else if !hookExtensions.isEmpty && MatchesInclude hookExtensions filePath then true
  else if !hookGlobs.isEmpty && MatchesAnyGlob pathMatch hookGlobs filePath then true
  else false

/-- Hook filter configuration (config.Hook): the two filter lists; the
HTTP/command payloads are irrelevant to the filtering claims. -/
structure Hook where
  matchExtensions : List String
  matchGlobs : List String

/-- Model of `core.shouldTriggerHook` (hooks.go), the variant called by
`RunHooks`; same logic as `ShouldTriggerHook` over the hook's fields. -/
def shouldTriggerHook (pathMatch : String → String → Bool) (hook : Hook)
    (filePath : String) : Bool :=
  if hook.matchExtensions.isEmpty && hook.matchGlobs.isEmpty then true
  else if !hook.matchExtensions.isEmpty && MatchesInclude hook.matchExtensions filePath then true
  else if !hook.matchGlobs.isEmpty && MatchesAnyGlob pathMatch hook.matchGlobs filePath then true
  else false

/-- Go `strings.TrimSpace(strings.ToLower(ext))`, the cleaning step of
`normalizeIncludeExtensions` (pair.go). -/
def cleanExt (s : String) : String := strTrim (strToLower s)

/-- One loop iteration of `normalizeIncludeExtensions` (pair.go): state is
(matchAll flag, normalized list so far); the `seen` set of the source is
exactly the set of elements of the normalized list. -/
def normStep (st : Bool × List String) (ext : String) : Bool × List String :=
  let c := cleanExt ext
  if c = "" then st
  else if c = "*" || c = ".*" then (true, st.2)
  else
    let c2 := if startsWithDot c then c else "." ++ c
    if st.2.contains c2 then st else (st.1, st.2 ++ [c2])

/-- Model of `core.normalizeIncludeExtensions` (pair.go) as a function on
the extension list (the source mutates `pair.IncludeExt`; Go `nil` is
modelled as `[]`). -/
def normalizeIncludeExtensions (exts : List String) : List String :=
  if exts.isEmpty then exts
  else
    let st := exts.foldl normStep (false, [])
    if st.1 || st.2.isEmpty then [] else st.2

/-- Contents and modification time (nanoseconds) of one regular file. -/
structure FileInfo where
  content : List Nat
  mtimeNs : Int
deriving DecidableEq, Repr

/-- Size in bytes, Go `FileInfo.Size()`. -/
def FileInfo.size (i : FileInfo) : Nat := i.content.length

/-- A directory tree: relative slash path to file info. -/
abbrev FS := List (String × FileInfo)

/-- The fields of `config.Pair` consumed by the copy engine. -/
structure SyncPair where
  id : String
  source : String
  target : String
  includeExt : List String
  excludeGlobs : List String
  syncStrategy : String
  mirrorDeletes : Bool
deriving DecidableEq, Repr

/-- Go `filepath.Join` for the clean slash paths of the model. -/
def joinPath (a b : String) : String := a ++ "/" ++ b

/-- Model of `Copier.compareByModTimeAndSize` (hooks.go): different sizes
differ; otherwise the absolute mtime difference must exceed the 2 s
tolerance (`ModTimeToleranceSeconds`). -/
def compareByModTimeAndSize (src tgt : FileInfo) : Bool :=
  if src.size != tgt.size then true
  else (src.mtimeNs - tgt.mtimeNs).natAbs > 2 * 1000000000

/-- Model of `Copier.filesAreDifferent` (hooks.go).  The `hash` strategy
compares SHA-256 digests; the digest is modelled as injective, so it
compares the contents. Every other strategy string falls through to the
mtime+size comparison, as in the source `switch`. -/
def filesAreDifferent (strategy : String) (src tgt : FileInfo) : Bool :=
  if strategy = "hash" then src.content != tgt.content
  else compareByModTimeAndSize src tgt

/-- Model of `Copier.isFileChanged` (hooks.go): a missing target file is
always changed. -/
def isFileChanged (pair : SyncPair) (tgt : FS) (rel : String) (srcInfo : FileInfo) : Bool :=
  match lookupKV tgt rel with
  | none => true
  | some targetInfo => filesAreDifferent pair.syncStrategy srcInfo targetInfo

/-- Model of `Copier.shouldSyncFile` (hooks.go).  The source threads
`relativePath` through but never reads it; both filters are applied to
the full source path. -/
def shouldSyncFile (pathMatch : String → String → Bool) (pair : SyncPair)
    (fullPath relativePath : String) : Bool :=
  if !MatchesInclude pair.includeExt fullPath then false
  else if MatchesExclude pathMatch pair.excludeGlobs fullPath then false
  else true

/-- One file visit of `Copier.syncSourceToTarget` (hooks.go): skip a
filtered or unchanged file, otherwise copy it atomically into the target
(contents copied, source mtime preserved by the `Chtimes` in
`copyAtomic`). -/
def syncStep (pathMatch : String → String → Bool) (pair : SyncPair)
    (tgt : FS) (e : String × FileInfo) : FS :=
  let fullPath := joinPath pair.source e.1
  if !shouldSyncFile pathMatch pair fullPath e.1 then tgt
  else if !isFileChanged pair tgt e.1 e.2 then tgt
  else setKV tgt e.1 ⟨e.2.content, e.2.mtimeNs⟩

/-- Model of `Copier.syncSourceToTarget` (hooks.go): walk the source files
in order, applying `syncStep`. -/
def syncSourceToTarget (pathMatch : String → String → Bool) (pair : SyncPair)
    (src tgt : FS) : FS :=
  src.foldl (syncStep pathMatch pair) tgt

/-- One file visit of `Copier.mirrorDeletions` (hooks.go): delete the
target file iff the same relative path does not exist in the source. -/
def deleteStep (src : FS) (tgt : FS) (e : String × FileInfo) : FS :=
  if (lookupKV src e.1).isNone then eraseKV tgt e.1 else tgt

/-- Model of `Copier.mirrorDeletions` (hooks.go): walk the target tree,
removing files whose source counterpart is missing.  The walk decision
depends only on the source tree, so folding over the snapshot of the
target is faithful. -/
def mirrorDeletions (src tgt : FS) : FS :=
  tgt.foldl (deleteStep src) tgt

/-- Model of `Copier.performSync` (hooks.go): copy phase, then the mirror
deletion phase when `mirrorDeletes` is set.  Only the resulting target
tree is modelled; the statistics counters do not affect it. -/
def performSync (pathMatch : String → String → Bool) (pair : SyncPair)
    (src tgt : FS) : FS :=
  let t1 := syncSourceToTarget pathMatch pair src tgt
  if pair.mirrorDeletes then mirrorDeletions src t1 else t1

/-- Failure injection for one `copyAtomic` call: which primitive I/O
operation fails, and how many bytes the buffered copy managed to write
before a copy failure. -/
structure FailPlan where
  openFail : Bool
  createFail : Bool
  copyFail : Bool
  copyFailBytes : Nat
  closeFail : Bool
  renameFail : Bool
deriving DecidableEq, Repr

/-- Model of `copyAtomic` (hooks.go) over the whole filesystem namespace,
with an injected failure plan.  Returns the final filesystem, `some n`
with the byte count on success or `none` on error, and the list of every
filesystem state an independent reader could observe, in order: initial
state, temp created empty, temp partially written, temp fully written,
temp with source mtime applied (`Chtimes`, errors ignored), and either
the rename result or the cleanup result.  `dst` is written only by the
final rename. -/
def copyAtomicRun (fs : FS) (src dst : String) (plan : FailPlan) :
    FS × Option Nat × List FS :=
  let tmp := dst ++ ".tmp"
  match lookupKV fs src with
  | none => (fs, none, [fs])
  | some info =>
    if plan.openFail then (fs, none, [fs])
    else if plan.createFail then (fs, none, [fs])
    else
      let fs1 := setKV fs tmp ⟨[], 0⟩
      if plan.copyFail then
        let written := min plan.copyFailBytes info.content.length
        let fs2 := setKV fs1 tmp ⟨info.content.take written, 0⟩
        let fs3 := eraseKV fs2 tmp
        (fs3, none, [fs, fs1, fs2, fs3])
      else
        let fsMid := setKV fs1 tmp ⟨info.content.take plan.copyFailBytes, 0⟩
        let fs2 := setKV fsMid tmp ⟨info.content, 0⟩
        if plan.closeFail then
          let fs3 := eraseKV fs2 tmp
          (fs3, none, [fs, fs1, fsMid, fs2, fs3])
        else
          let fs3 := setKV fs2 tmp ⟨info.content, info.mtimeNs⟩
          if plan.renameFail then
            let fs4 := eraseKV fs3 tmp
            (fs4, none, [fs, fs1, fsMid, fs2, fs3, fs4])
          else
            let fs4 := setKV (eraseKV fs3 tmp) dst ⟨info.content, info.mtimeNs⟩
            (fs4, some info.content.length, [fs, fs1, fsMid, fs2, fs3, fs4])

/-- Outcome of one task-function invocation as seen by
`Scheduler.executeTask` (scheduler.go): nil error, a non-nil error, or a
panic raised inside `fn`. -/
inductive TaskOutcome
  | success
  | failure (msg : String)
  | panics (msg : String)
deriving DecidableEq, Repr

/-- The statistics fields of `scheduler.Task` mutated by `executeTask`. -/
structure TaskStats where
  runCount : Nat
  failCount : Nat
  lastError : String
deriving DecidableEq, Repr

/-- Model of `Scheduler.executeTask` (scheduler.go).  On a nil error the
last error is cleared and `RunCount++` runs.  On a non-nil error
`FailCount++` and `LastError` are set, and then the trailing
`task.RunCount++` runs as well.  On a panic the deferred recover runs
`FailCount++` and sets the panic message, and the trailing `RunCount++`
is never reached. -/
def executeTask (t : TaskStats) : TaskOutcome → TaskStats
  | .success => { t with lastError := "", runCount := t.runCount + 1 }
  | .failure m =>
      { t with failCount := t.failCount + 1, lastError := m, runCount := t.runCount + 1 }
  | .panics m =>
      { t with failCount := t.failCount + 1, lastError := "panic: " ++ m }

/-- Schedule type tag (scheduler.ScheduleType).  The variant payloads
(interval string, cron expression, custom window) do not affect the
registry claims; pairs reaching the manager have passed validation. -/
inductive SchedType
  | disabled
  | watcher
  | interval
  | cron
  | custom
deriving DecidableEq, Repr

/-- The registry-visible fields of `scheduler.Task`: `AddTask` always
creates the task with `Enabled: true`. -/
structure TaskEntry where
  name : String
  schedType : SchedType
  enabled : Bool
deriving DecidableEq, Repr

/-- Joint state of the pair manager and its embedded scheduler: the
scheduler task registry and the worker (watcher) set, keyed by pair id. -/
structure ManagerState where
  tasks : List (String × TaskEntry)
  workers : List String
deriving DecidableEq, Repr

/-- The empty manager produced by `NewPairManager`. -/
def initManager : ManagerState := ⟨[], []⟩

/-- Error kinds of the scheduler/manager registry operations: the
duplicate-id error of `AddTask`, the schedule-registration failure of
`scheduleTask` (e.g. `cron.AddFunc` rejecting a cron expression that
pair validation admitted — `validateCronSchedule` checks only
non-emptiness), and the unknown-id error. -/
inductive MgrErr
  | duplicate
  | scheduleFailed
  | notFound
deriving DecidableEq, Repr

/-- A schedule value as the scheduler receives it: the type tag plus the
outcome of registering it (`schedOk`), i.e. whether `scheduleTask`
succeeds — for cron, whether `cron.AddFunc` parses the expression.
Interval and custom parameters of validated pairs always parse, but the
scheduler-level model keeps the outcome general. -/
structure SchedSpec where
  stype : SchedType
  schedOk : Bool
deriving DecidableEq, Repr

/-- Whether `scheduleTask` (scheduler.go) succeeds on a schedule:
disabled and watcher schedules have no firing path to set up and always
succeed; interval, cron and custom succeed iff their parameters
register. -/
def scheduleOk (sch : SchedSpec) : Bool :=
  match sch.stype with
  | SchedType.disabled => true
  | SchedType.watcher => true
  | _ => sch.schedOk

/-- Model of `Scheduler.AddTask` (scheduler.go): duplicate-id error if
the id exists; otherwise `scheduleTask` runs, and its failure aborts
BEFORE the task is inserted; otherwise insert with `Enabled: true`. -/
def addTask (s : ManagerState) (id name : String) (sch : SchedSpec) :
    ManagerState × Option MgrErr :=
  if (lookupKV s.tasks id).isSome then (s, some MgrErr.duplicate)
  else if !scheduleOk sch then (s, some MgrErr.scheduleFailed)
  else ({ s with tasks := setKV s.tasks id ⟨name, sch.stype, true⟩ }, none)

/-- Model of `Scheduler.RemoveTask` (scheduler.go): error if the id is
unknown, otherwise unschedule and forget. -/
def removeTask (tasks : List (String × TaskEntry)) (id : String) :
    List (String × TaskEntry) × Bool :=
  if (lookupKV tasks id).isSome then (eraseKV tasks id, true) else (tasks, false)

/-- Drop every occurrence of an id from a worker-id list (map delete). -/
def removeWorker : List String → String → List String
  | [], _ => []
  | w :: rest, k => if w = k then removeWorker rest k else w :: removeWorker rest k

/-- Model of `PairManager.StartPair` (pair.go).  Only when a WORKER exists
for the id does it stop the worker, remove the scheduler task and drop
the worker entry; then `AddTask` runs (and can fail with the duplicate
error or a schedule-registration failure, in which case the stripped
state persists), and for a watcher-type schedule a worker is started
(`PairWorker.Start` never returns an error). -/
def startPair (s : ManagerState) (id name : String) (sch : SchedSpec) :
    ManagerState × Option MgrErr :=
  let s1 :=
    if id ∈ s.workers then
      { tasks := (removeTask s.tasks id).1, workers := removeWorker s.workers id }
    else s
  let r := addTask s1 id name sch
  if r.2.isSome then (r.1, r.2)
  else if sch.stype = SchedType.watcher then
    ({ r.1 with workers := id :: r.1.workers }, none)
  else (r.1, none)

/-- Model of `PairManager.StopPair` (pair.go): stop and drop the worker if
present, then `RemoveTask` (whose not-found error is returned but the
worker removal persists). -/
def stopPair (s : ManagerState) (id : String) : ManagerState × Bool :=
  let s1 := { s with workers := removeWorker s.workers id }
  let r := removeTask s1.tasks id
  ({ s1 with tasks := r.1 }, r.2)

/-- Model of `Scheduler.UpdateTask` (scheduler.go): unknown-id error;
otherwise the task is unscheduled and its stored schedule REPLACED, and
only then rescheduled (when enabled) — so a reschedule failure leaves
the new schedule stored on the still-registered task and returns the
error. -/
def updateTask (tasks : List (String × TaskEntry)) (id : String) (sch : SchedSpec) :
    List (String × TaskEntry) × Option MgrErr :=
  match lookupKV tasks id with
  | none => (tasks, some MgrErr.notFound)
  | some t =>
    let tasks1 := setKV tasks id { t with schedType := sch.stype }
    if t.enabled && !scheduleOk sch then (tasks1, some MgrErr.scheduleFailed)
    else (tasks1, none)

/-- Model of `PairManager.UpdatePair` (pair.go): on any `UpdateTask`
error it returns EARLY, before the watcher-reconciliation block, so a
failed reschedule leaves the worker set untouched while the registered
schedule already carries the new type; on success the worker set is
reconciled with the new schedule type (enabled flag kept). -/
def updatePair (s : ManagerState) (id : String) (sch : SchedSpec) :
    ManagerState × Option MgrErr :=
  let r := updateTask s.tasks id sch
  if r.2.isSome then ({ s with tasks := r.1 }, r.2)
  else
    let s1 := { s with tasks := r.1 }
    if sch.stype = SchedType.watcher then
      if id ∈ s1.workers then (s1, none)
      else ({ s1 with workers := id :: s1.workers }, none)
    else ({ s1 with workers := removeWorker s1.workers id }, none)

/-- The pair-manager operations reachable from the admin surface
(server.go routes every pair mutation through `StartPair`, `StopPair`
and `UpdatePair`; the scheduler's `EnableTask`/`DisableTask` have no
caller and the `scheduler` field is unexported, so no reachable path
flips a task's enabled flag). -/
inductive MgrOp
  | start (id name : String) (sch : SchedSpec)
  | stop (id : String)
  | update (id : String) (sch : SchedSpec)
deriving DecidableEq, Repr

/-- Apply one operation, discarding the returned error (server.go ignores
`UpdatePair`'s error and surfaces the others without retrying, so the
reachable state is the one left behind either way). -/
def applyMgrOp (s : ManagerState) : MgrOp → ManagerState
  | .start id name sch => (startPair s id name sch).1
  | .stop id => (stopPair s id).1
  | .update id sch => (updatePair s id sch).1

/-- States of the pair manager reachable by a sequence of operations from
the fresh manager. -/
def runMgrOps (ops : List MgrOp) : ManagerState :=
  ops.foldl applyMgrOp initManager

/-- An operation is reschedule-clean when, if it is an `update`, its
schedule registers; `start` and `stop` are unrestricted (all their
failure paths preserve the watcher invariant). -/
def opOk : MgrOp → Bool
  | MgrOp.update _ sch => scheduleOk sch
  | _ => true

/-- The retry delays of `PairWorker.handleFileModification` (pair.go):
`FirstRetryDelay`, `SecondRetryDelay`, `ThirdRetryDelay` in ms. -/
def retryDelaysMs : List Nat := [100, 300, 600]

/-- The retry loop of `PairWorker.handleFileModification` (pair.go):
`for i, delay := range retryDelays { copy; if ok break; if i < len-1
sleep(delay) }`.  `attemptOk i` tells whether the i-th `copyAtomic` call
succeeds.  Returns (number of copy attempts, delays actually slept in
ms, overall success). -/
def retryGo (attemptOk : Nat → Bool) : Nat → List Nat → Nat × List Nat × Bool
  | _, [] => (0, [], false)
  | i, d :: rest =>
    if attemptOk i then (1, [], true)
    else if rest.isEmpty then (1, [], false)
    else
      let r := retryGo attemptOk (i + 1) rest
      (r.1 + 1, d :: r.2.1, r.2.2)

/-- The whole retry loop over the configured delay table. -/
def watcherCopyRetry (attemptOk : Nat → Bool) : Nat × List Nat × Bool :=
  retryGo attemptOk 0 retryDelaysMs

/-- Inductive invariant of the manager registry: every registered task is
enabled (nothing reachable ever clears the flag), and a worker exists
for an id exactly when its registered task has the watcher schedule. -/
def MgrInv (s : ManagerState) : Prop :=
  (∀ id t, lookupKV s.tasks id = some t → t.enabled = true) ∧
  (∀ id, id ∈ s.workers ↔
    ∃ t, lookupKV s.tasks id = some t ∧ t.schedType = SchedType.watcher)

-- ===== THEOREMS =====

/-- Lookup after erasing a key: gone at that key, untouched elsewhere. -/
theorem lookupKV_eraseKV {α : Type} (l : List (String × α)) (k q : String) :
    lookupKV (eraseKV l k) q = if q = k then none else lookupKV l q := by
  induction l with
  | nil => simp [eraseKV, lookupKV]
  | cons e rest ih =>
    obtain ⟨a, v⟩ := e
    by_cases hak : a = k
    · subst hak
      by_cases hqa : q = a
      · subst hqa; simpa [eraseKV, lookupKV] using ih
      · have haq : ¬a = q := fun h => hqa h.symm
        simp [eraseKV, lookupKV, ih, hqa, haq]
    · by_cases haq : a = q
      · subst haq
        simp [eraseKV, lookupKV, hak]
      · simp [eraseKV, lookupKV, hak, haq, ih]

/-- Lookup after setting a key. -/
theorem lookupKV_setKV {α : Type} (l : List (String × α)) (k q : String) (v : α) :
    lookupKV (setKV l k v) q = if q = k then some v else lookupKV l q := by
  by_cases hqk : q = k
  · subst hqk; simp [setKV, lookupKV]
  · have hkq : ¬k = q := fun h => hqk h.symm
    simp [setKV, lookupKV, hqk, hkq, lookupKV_eraseKV]

/-- Membership after dropping a worker id. -/
theorem mem_removeWorker (l : List String) (k q : String) :
    q ∈ removeWorker l k ↔ q ∈ l ∧ q ≠ k := by
  induction l with
  | nil => simp [removeWorker]
  | cons w rest ih =>
    by_cases hwk : w = k
    · subst hwk
      simp [removeWorker, ih]
      tauto
    · simp only [removeWorker, if_neg hwk, List.mem_cons, ih]
      constructor
      · rintro (rfl | ⟨h1, h2⟩)
        · exact ⟨Or.inl rfl, fun h => hwk h⟩
        · exact ⟨Or.inr h1, h2⟩
      · rintro ⟨h1 | h1, h2⟩
        · exact Or.inl h1
        · exact Or.inr ⟨h1, h2⟩


/-- C3: statistics bookkeeping of `executeTask`.  A successful invocation
and a panicking invocation each grow `run_count + fail_count` by exactly
one, but an invocation whose task function returns an error grows the
sum by TWO, because `FailCount++` runs in the error branch and the
trailing `RunCount++` runs as well.  This contradicts the claimed
invariant (and the source's own field documentation, which calls
`RunCount` "Total successful executions"). -/
theorem executeTask_failure_counts_twice (t : TaskStats) (m : String) :
    ((executeTask t .success).runCount + (executeTask t .success).failCount
        = t.runCount + t.failCount + 1) ∧
    ((executeTask t (.panics m)).runCount + (executeTask t (.panics m)).failCount
        = t.runCount + t.failCount + 1) ∧
    ((executeTask t (.failure m)).runCount + (executeTask t (.failure m)).failCount
        = t.runCount + t.failCount + 2) := by
  refine ⟨?_, ?_, ?_⟩ <;> simp [executeTask] <;> omega

/-- C6 counterexample: `RemoveTask` on an unknown id returns a not-found
error (second component `false`) instead of succeeding, so the operation
is not idempotent as claimed; the registry is left unchanged. -/
theorem removeTask_unknown_id_errors :
    (removeTask [] "x").2 = false ∧ (removeTask [] "x").1 = [] := by
  constructor <;> rfl

/-- C6 amended: `RemoveTask` on an unknown id reports the not-found error
and leaves the registry unchanged; on a registered id it removes the
task, after which the id no longer resolves and a second call errors. -/
theorem removeTask_behavior (tasks : List (String × TaskEntry)) (id : String) :
    (lookupKV tasks id = none → removeTask tasks id = (tasks, false)) ∧
    ((lookupKV tasks id).isSome = true →
      (removeTask tasks id).2 = true ∧
      lookupKV (removeTask tasks id).1 id = none ∧
      (removeTask (removeTask tasks id).1 id).2 = false) := by
  constructor
  · intro h; simp [removeTask, h]
  · intro h; simp [removeTask, h, lookupKV_eraseKV]

/-- Witness for `removeTask_behavior` at a concrete one-task registry. -/
theorem removeTask_behavior_witness :
    (removeTask [("a", ⟨"n", SchedType.interval, true⟩)] "a").2 = true ∧
    lookupKV (removeTask [("a", ⟨"n", SchedType.interval, true⟩)] "a").1 "a" = none ∧
    (removeTask (removeTask [("a", ⟨"n", SchedType.interval, true⟩)] "a").1 "a").2 = false :=
  (removeTask_behavior [("a", ⟨"n", SchedType.interval, true⟩)] "a").2 (by decide)

/-- C7 counterexample: with every copy attempt failing, the watcher retry
loop makes THREE `copyAtomic` attempts in total and sleeps only 100 ms
and 300 ms between them; the claimed four attempts (initial plus three
retries) and the claimed 600 ms delay never happen, because the loop
body is the attempt and the last iteration skips its sleep. -/
theorem watcherCopyRetry_three_attempts :
    watcherCopyRetry (fun _ => false) = (3, [100, 300], false) ∧
    (watcherCopyRetry (fun _ => false)).1 ≠ 4 := by
  constructor <;> decide

/-- C7 amended: the per-file watcher copy makes at most three attempts
(initial plus two retries), sleeping 100 ms after the first failure and
300 ms after the second; the 600 ms constant is configured but never
slept. -/
theorem watcherCopyRetry_characterization (f : Nat → Bool) :
    (f 0 = true → watcherCopyRetry f = (1, [], true)) ∧
    (f 0 = false → f 1 = true → watcherCopyRetry f = (2, [100], true)) ∧
    (f 0 = false → f 1 = false → f 2 = true →
      watcherCopyRetry f = (3, [100, 300], true)) ∧
    (f 0 = false → f 1 = false → f 2 = false →
      watcherCopyRetry f = (3, [100, 300], false)) := by
  refine ⟨?_, ?_, ?_, ?_⟩
  · intro h0; simp [watcherCopyRetry, retryDelaysMs, retryGo, h0]
  · intro h0 h1; simp [watcherCopyRetry, retryDelaysMs, retryGo, h0, h1]
  · intro h0 h1 h2; simp [watcherCopyRetry, retryDelaysMs, retryGo, h0, h1, h2]
  · intro h0 h1 h2; simp [watcherCopyRetry, retryDelaysMs, retryGo, h0, h1, h2]

/-- Witness for `watcherCopyRetry_characterization`: success on the
second attempt gives two attempts and a single 100 ms sleep. -/
theorem watcherCopyRetry_characterization_witness :
    watcherCopyRetry (fun i => i == 1) = (2, [100], true) :=
  (watcherCopyRetry_characterization (fun i => i == 1)).2.1 (by decide) (by decide)

/-- The matchAll flag of the normalization fold is monotone: once set it
stays set through the remaining entries. -/
theorem foldl_normStep_matchAll (l : List String) (st : Bool × List String)
    (h : st.1 = true) : (l.foldl normStep st).1 = true := by
  induction l generalizing st with
  | nil => simpa using h
  | cons e rest ih =>
    apply ih
    simp only [normStep]
    split
    · exact h
    · split
      · rfl
      · split
        · split
          · exact h
          · exact h
        · split
          · exact h
          · exact h

/-- A wildcard entry sets the matchAll flag in one step. -/
theorem normStep_wildcard (st : Bool × List String) (e : String)
    (hw : cleanExt e = "*" ∨ cleanExt e = ".*") : (normStep st e).1 = true := by
  rcases hw with hw | hw <;> simp [normStep, hw]

/-- A wildcard entry anywhere in the list forces the matchAll flag of the
whole fold. -/
theorem foldl_normStep_wildcard (l : List String) (st : Bool × List String)
    (e : String) (he : e ∈ l) (hw : cleanExt e = "*" ∨ cleanExt e = ".*") :
    (l.foldl normStep st).1 = true := by
  induction l generalizing st with
  | nil => cases he
  | cons a rest ih =>
    rcases List.mem_cons.mp he with rfl | hmem
    · exact foldl_normStep_matchAll rest _ (normStep_wildcard st e hw)
    · exact ih _ hmem

/-- C8 counterexample: `MatchesInclude` itself gives a wildcard entry no
special treatment; with the raw list `["*"]` the file `a.txt` is
REJECTED, contradicting the claim that a wildcard entry makes
`matches_include` true for every path.  The collapse to the match-all
empty list happens only in `normalizeIncludeExtensions` during pair
validation. -/
theorem matchesInclude_wildcard_not_special :
    MatchesInclude ["*"] "a.txt" = false := by decide

/-- C8 amended: after the pair-validation normalization
(`normalizeIncludeExtensions`), a list containing a wildcard entry `*`
or `.*` (up to the source's lowercasing and trimming) collapses to the
empty list, and `MatchesInclude` on the normalized list then accepts
every path. -/
theorem normalized_wildcard_matches_all (exts : List String) (p e : String)
    (he : e ∈ exts) (hw : cleanExt e = "*" ∨ cleanExt e = ".*") :
    MatchesInclude (normalizeIncludeExtensions exts) p = true := by
  have hne : exts.isEmpty = false := by
    cases exts
    · cases he
    · rfl
  have hm := foldl_normStep_wildcard exts (false, []) e he hw
  simp [normalizeIncludeExtensions, hne, hm, MatchesInclude]

/-- Witness for `normalized_wildcard_matches_all` on a concrete list
containing a wildcard. -/
theorem normalized_wildcard_matches_all_witness :
    MatchesInclude (normalizeIncludeExtensions ["*", ".TXT"]) "b.md" = true :=
  normalized_wildcard_matches_all ["*", ".TXT"] "b.md" "*" (by decide)
    (Or.inl (by decide))

/-- C10: hook filtering is a disjunction.  The hook fires exactly when
both filter lists are empty, or the non-empty extension list matches the
path's lowercased extension, or the non-empty glob list matches the
slash-normalized path; and the hooks.go helper agrees with the filters.go
export of the same logic. -/
theorem shouldTriggerHook_disjunctive (pm : String → String → Bool) (h : Hook)
    (p : String) :
    (shouldTriggerHook pm h p = true ↔
      (h.matchExtensions = [] ∧ h.matchGlobs = []) ∨
      (h.matchExtensions ≠ [] ∧
        ∃ e ∈ h.matchExtensions, strToLower e = strToLower (filepathExt p)) ∨
      (h.matchGlobs ≠ [] ∧ ∃ g ∈ h.matchGlobs, pm g (toSlash p) = true)) ∧
    shouldTriggerHook pm h p = ShouldTriggerHook pm h.matchExtensions h.matchGlobs p := by
  obtain ⟨exts, globs⟩ := h
  refine ⟨?_, rfl⟩
  cases exts with
  | nil =>
    cases globs with
    | nil => simp [shouldTriggerHook]
    | cons g gs => simp [shouldTriggerHook, MatchesAnyGlob, List.any_eq_true]
  | cons e es =>
    cases globs with
    | nil => simp [shouldTriggerHook, MatchesInclude, List.any_eq_true]
    | cons g gs =>
      simp [shouldTriggerHook, MatchesInclude, MatchesAnyGlob, List.any_eq_true]

/-- After `RemoveTask` the id never resolves, whether or not it was
registered. -/
theorem removeTask_lookup_none (tasks : List (String × TaskEntry)) (id : String) :
    lookupKV (removeTask tasks id).1 id = none := by
  unfold removeTask
  cases hlk : lookupKV tasks id with
  | none => simp [hlk]
  | some t => simp [hlk, lookupKV_eraseKV]

/-- The fresh manager satisfies the registry invariant. -/
theorem mgrInv_init : MgrInv initManager := by
  constructor
  · intro id t ht; simp [initManager, lookupKV] at ht
  · intro id; simp [initManager, lookupKV]

/-- Stripping a worker id (with its task) preserves the invariant. -/
theorem mgrInv_strip (s : ManagerState) (id : String) (h : MgrInv s) :
    MgrInv ⟨(removeTask s.tasks id).1, removeWorker s.workers id⟩ := by
  have htasks : ∀ q, q ≠ id →
      lookupKV (removeTask s.tasks id).1 q = lookupKV s.tasks q := by
    intro q hq
    unfold removeTask
    by_cases hl : (lookupKV s.tasks id).isSome
    · simp [hl, lookupKV_eraseKV, hq]
    · simp [hl]
  constructor
  · intro q t hq
    by_cases hqid : q = id
    · subst hqid; rw [removeTask_lookup_none] at hq; cases hq
    · exact h.1 q t ((htasks q hqid) ▸ hq)
  · intro q
    rw [mem_removeWorker]
    by_cases hqid : q = id
    · subst hqid
      rw [removeTask_lookup_none]
      simp
    · rw [htasks q hqid]
      simp only [hqid, ne_eq, not_false_iff, and_true]
      exact h.2 q

/-- Inserting a fresh task (always `enabled`) and starting a worker
exactly when the schedule is the watcher type preserves the invariant,
provided no worker for the id is present. -/
theorem mgrInv_insert (s : ManagerState) (id name : String) (sched : SchedType)
    (h : MgrInv s) (hw : id ∉ s.workers) :
    MgrInv ⟨setKV s.tasks id ⟨name, sched, true⟩,
            if sched = SchedType.watcher then id :: s.workers else s.workers⟩ := by
  constructor
  · intro q t hq
    rw [lookupKV_setKV] at hq
    by_cases hqid : q = id
    · rw [if_pos hqid] at hq
      cases hq; rfl
    · rw [if_neg hqid] at hq
      exact h.1 q t hq
  · intro q
    by_cases hqid : q = id
    · subst hqid
      rw [lookupKV_setKV, if_pos rfl]
      by_cases hs : sched = SchedType.watcher
      · simp [hs]
      · simp [hs, hw]
    · rw [lookupKV_setKV, if_neg hqid]
      by_cases hs : sched = SchedType.watcher
      · subst hs
        rw [if_pos rfl]
        constructor
        · intro hq
          rcases List.mem_cons.mp hq with rfl | hq2
          · exact absurd rfl hqid
          · exact (h.2 q).mp hq2
        · intro hq
          exact List.mem_cons.mpr (Or.inr ((h.2 q).mpr hq))
      · rw [if_neg hs]
        exact h.2 q

/-- Replacing a registered task's schedule and reconciling the worker set
with the new schedule type preserves the invariant. -/
theorem mgrInv_reconcile (s : ManagerState) (id : String) (t : TaskEntry)
    (sched : SchedType) (h : MgrInv s) (hlk : lookupKV s.tasks id = some t) :
    MgrInv ⟨setKV s.tasks id ⟨t.name, sched, t.enabled⟩,
            if sched = SchedType.watcher then
              (if id ∈ s.workers then s.workers else id :: s.workers)
            else removeWorker s.workers id⟩ := by
  constructor
  · intro q u hq
    rw [lookupKV_setKV] at hq
    by_cases hqid : q = id
    · rw [if_pos hqid] at hq
      cases hq
      exact h.1 id t hlk
    · rw [if_neg hqid] at hq
      exact h.1 q u hq
  · intro q
    by_cases hqid : q = id
    · subst hqid
      rw [lookupKV_setKV, if_pos rfl]
      by_cases hs : sched = SchedType.watcher
      · subst hs
        rw [if_pos rfl]
        by_cases hw : q ∈ s.workers
        · simp [hw]
        · simp [hw]
      · rw [if_neg hs]
        simp [mem_removeWorker, hs]
    · rw [lookupKV_setKV, if_neg hqid]
      by_cases hs : sched = SchedType.watcher
      · subst hs
        rw [if_pos rfl]
        by_cases hw : id ∈ s.workers
        · rw [if_pos hw]
          exact h.2 q
        · rw [if_neg hw]
          constructor
          · intro hq
            rcases List.mem_cons.mp hq with rfl | hq2
            · exact absurd rfl hqid
            · exact (h.2 q).mp hq2
          · intro hq
            exact List.mem_cons.mpr (Or.inr ((h.2 q).mpr hq))
      · rw [if_neg hs, mem_removeWorker]
        simp only [hqid, ne_eq, not_false_iff, and_true]
        exact h.2 q

/-- `StartPair` preserves the registry invariant on every path, including
both `AddTask` failures (a duplicate id leaves the state as it stood; a
schedule-registration failure leaves the stripped state, with neither a
worker nor a task for the id). -/
theorem mgrInv_startPair (s : ManagerState) (id name : String) (sch : SchedSpec)
    (h : MgrInv s) : MgrInv (startPair s id name sch).1 := by
  by_cases hw : id ∈ s.workers
  · have h1 : MgrInv ⟨(removeTask s.tasks id).1, removeWorker s.workers id⟩ :=
      mgrInv_strip s id h
    have hl1 : lookupKV (removeTask s.tasks id).1 id = none :=
      removeTask_lookup_none s.tasks id
    have hw1 : id ∉ removeWorker s.workers id := by
      rw [mem_removeWorker]; simp
    cases hok : scheduleOk sch with
    | false =>
      have : (startPair s id name sch).1
          = ⟨(removeTask s.tasks id).1, removeWorker s.workers id⟩ := by
        simp [startPair, hw, addTask, hl1, hok]
      rw [this]; exact h1
    | true =>
      have hins := mgrInv_insert ⟨(removeTask s.tasks id).1, removeWorker s.workers id⟩
        id name sch.stype h1 hw1
      by_cases hs : sch.stype = SchedType.watcher
      · simp only [startPair, if_pos hw, addTask, hl1, hok, Option.isSome_none,
          Bool.false_eq_true, if_neg, if_pos hs, Bool.not_true, Bool.not_false]
        simpa [hs] using hins
      · simp only [startPair, if_pos hw, addTask, hl1, hok, Option.isSome_none,
          Bool.false_eq_true, if_neg, if_neg hs, Bool.not_true, Bool.not_false]
        simpa [hs] using hins
  · cases hlk : lookupKV s.tasks id with
    | some t =>
      have : (startPair s id name sch).1 = s := by
        simp [startPair, hw, addTask, hlk]
      rw [this]; exact h
    | none =>
      cases hok : scheduleOk sch with
      | false =>
        have : (startPair s id name sch).1 = s := by
          simp [startPair, hw, addTask, hlk, hok]
        rw [this]; exact h
      | true =>
        have hins := mgrInv_insert s id name sch.stype h hw
        by_cases hs : sch.stype = SchedType.watcher
        · simp only [startPair, if_neg hw, addTask, hlk, hok, Option.isSome_none,
            Bool.false_eq_true, if_neg, if_pos hs, Bool.not_true, Bool.not_false]
          simpa [hs] using hins
        · simp only [startPair, if_neg hw, addTask, hlk, hok, Option.isSome_none,
            Bool.false_eq_true, if_neg, if_neg hs, Bool.not_true, Bool.not_false]
          simpa [hs] using hins

/-- `StopPair` preserves the registry invariant. -/
theorem mgrInv_stopPair (s : ManagerState) (id : String) (h : MgrInv s) :
    MgrInv (stopPair s id).1 :=
  mgrInv_strip s id h

/-- `UpdatePair` preserves the registry invariant whenever the new
schedule registers (`UpdateTask` then cannot fail except on an unknown
id, which changes nothing). -/
theorem mgrInv_updatePair (s : ManagerState) (id : String) (sch : SchedSpec)
    (hok : scheduleOk sch = true) (h : MgrInv s) : MgrInv (updatePair s id sch).1 := by
  cases hlk : lookupKV s.tasks id with
  | none =>
    have : (updatePair s id sch).1 = s := by simp [updatePair, updateTask, hlk]
    rw [this]; exact h
  | some t =>
    have hrec := mgrInv_reconcile s id t sch.stype h hlk
    by_cases hs : sch.stype = SchedType.watcher
    · by_cases hw : id ∈ s.workers
      · have : (updatePair s id sch).1 =
            ⟨setKV s.tasks id ⟨t.name, sch.stype, t.enabled⟩, s.workers⟩ := by
          simp [updatePair, updateTask, hlk, hok, hs, hw]
        rw [this]
        simpa [hs, hw] using hrec
      · have : (updatePair s id sch).1 =
            ⟨setKV s.tasks id ⟨t.name, sch.stype, t.enabled⟩, id :: s.workers⟩ := by
          simp [updatePair, updateTask, hlk, hok, hs, hw]
        rw [this]
        simpa [hs, hw] using hrec
    · have : (updatePair s id sch).1 =
          ⟨setKV s.tasks id ⟨t.name, sch.stype, t.enabled⟩, removeWorker s.workers id⟩ := by
        simp [updatePair, updateTask, hlk, hok, hs]
      rw [this]
      simpa [hs] using hrec

/-- Every reschedule-clean operation preserves the registry invariant. -/
theorem mgrInv_applyMgrOp (s : ManagerState) (op : MgrOp) (hop : opOk op = true)
    (h : MgrInv s) : MgrInv (applyMgrOp s op) := by
  cases op with
  | start id name sch => exact mgrInv_startPair s id name sch h
  | stop id => exact mgrInv_stopPair s id h
  | update id sch => exact mgrInv_updatePair s id sch (by simpa [opOk] using hop) h

/-- The invariant holds along any fold of reschedule-clean operations. -/
theorem mgrInv_foldl (ops : List MgrOp) :
    ∀ s, (∀ op ∈ ops, opOk op = true) → MgrInv s →
      MgrInv (ops.foldl applyMgrOp s) := by
  induction ops with
  | nil => exact fun s _ h => h
  | cons op rest ih =>
    intro s hok h
    exact ih _ (fun o ho => hok o (List.mem_cons_of_mem _ ho))
      (mgrInv_applyMgrOp s op (hok op (List.mem_cons_self _ _)) h)

/-- Every manager state reachable by reschedule-clean operations
satisfies the registry invariant. -/
theorem mgrInv_runMgrOps (ops : List MgrOp) (hok : ∀ op ∈ ops, opOk op = true) :
    MgrInv (runMgrOps ops) :=
  mgrInv_foldl ops initManager hok mgrInv_init

/-- C4 counterexample: updating an enabled watcher-mode pair to a cron
schedule whose expression fails to register (pair validation checks only
that the expression is non-empty, so `cron.AddFunc` can still reject it)
makes `UpdateTask` store the new schedule and fail; `UpdatePair` then
returns before its watcher-reconciliation block.  The reachable result:
the watcher is still active while the registered, enabled task's
schedule type is cron — falsifying the claimed iff. -/
theorem watcher_survives_failed_reschedule :
    "p" ∈ (runMgrOps [MgrOp.start "p" "d" ⟨SchedType.watcher, true⟩,
        MgrOp.update "p" ⟨SchedType.cron, false⟩]).workers ∧
    lookupKV (runMgrOps [MgrOp.start "p" "d" ⟨SchedType.watcher, true⟩,
        MgrOp.update "p" ⟨SchedType.cron, false⟩]).tasks "p"
      = some ⟨"d", SchedType.cron, true⟩ ∧
    SchedType.cron ≠ SchedType.watcher := by
  refine ⟨?_, ?_, ?_⟩ <;> decide

/-- C4 amended: in every state of the pair manager reachable through its
operations (`StartPair`, `StopPair`, `UpdatePair` — the operations the
admin surface routes every pair mutation through; the scheduler's
`EnableTask`/`DisableTask` have no caller and the embedded scheduler is
unexported) in which no `UpdatePair` reschedule fails, a watcher is
active for an id exactly when a task is registered for it whose
schedule type is the watcher type and which is enabled.  Disabling a
pair goes through `StopPair`, which stops the watcher; enabling goes
through `StartPair`, which starts one.  A failed reschedule (a
validated-but-unparsable cron expression) breaks the equivalence, as
`watcher_survives_failed_reschedule` shows; `StartPair`/`StopPair`
failures never do. -/
theorem watcher_active_iff_watcher_schedule_enabled (ops : List MgrOp) (id : String)
    (hok : ∀ op ∈ ops, opOk op = true) :
    id ∈ (runMgrOps ops).workers ↔
      ∃ t, lookupKV (runMgrOps ops).tasks id = some t ∧
        t.schedType = SchedType.watcher ∧ t.enabled = true := by
  have h := mgrInv_runMgrOps ops hok
  constructor
  · intro hw
    obtain ⟨t, ht, hts⟩ := (h.2 id).mp hw
    exact ⟨t, ht, hts, h.1 id t ht⟩
  · rintro ⟨t, ht, hts, -⟩
    exact (h.2 id).mpr ⟨t, ht, hts⟩

/-- Witness for `watcher_active_iff_watcher_schedule_enabled`: one
reschedule-clean trace starting a watcher pair. -/
theorem watcher_active_iff_watcher_schedule_enabled_witness :
    "p" ∈ (runMgrOps [MgrOp.start "p" "d" ⟨SchedType.watcher, true⟩]).workers ↔
      ∃ t, lookupKV
          (runMgrOps [MgrOp.start "p" "d" ⟨SchedType.watcher, true⟩]).tasks "p"
          = some t ∧ t.schedType = SchedType.watcher ∧ t.enabled = true :=
  watcher_active_iff_watcher_schedule_enabled
    [MgrOp.start "p" "d" ⟨SchedType.watcher, true⟩] "p" (by decide)

/-- C5 counterexample: starting the same id twice with a non-watcher
schedule makes the second `StartPair` fail with the scheduler's
duplicate error (it only stops-and-reregisters when a WORKER exists for
the id), leaving the state unchanged. -/
theorem startPair_duplicate_on_nonwatcher :
    (startPair (startPair initManager "p" "d" ⟨SchedType.interval, true⟩).1
        "p" "d" ⟨SchedType.interval, true⟩).2 = some MgrErr.duplicate ∧
    (startPair (startPair initManager "p" "d" ⟨SchedType.interval, true⟩).1
        "p" "d" ⟨SchedType.interval, true⟩).1
      = (startPair initManager "p" "d" ⟨SchedType.interval, true⟩).1 := by
  constructor <;> rfl

/-- C5 amended: `StartPair` stops an existing entry only when a watcher
worker exists for the id.  In that case it never fails with the
Duplicate error: it re-registers successfully whenever the new schedule
registers, but a schedule-registration failure (validated-but-unparsable
cron) aborts AFTER the stop, leaving the pair stripped — worker stopped,
task removed, nothing re-registered.  For an id registered without a
worker (any non-watcher schedule), `StartPair` fails with the Duplicate
error and changes nothing. -/
theorem startPair_restart_behavior (s : ManagerState) (id name : String)
    (sch : SchedSpec) :
    (id ∈ s.workers → (startPair s id name sch).2 ≠ some MgrErr.duplicate) ∧
    (id ∈ s.workers → scheduleOk sch = true →
      (startPair s id name sch).2 = none) ∧
    (id ∈ s.workers → scheduleOk sch = false →
      (startPair s id name sch).2 = some MgrErr.scheduleFailed ∧
      (startPair s id name sch).1
        = ⟨(removeTask s.tasks id).1, removeWorker s.workers id⟩) ∧
    ((lookupKV s.tasks id).isSome = true → id ∉ s.workers →
      (startPair s id name sch).2 = some MgrErr.duplicate ∧
      (startPair s id name sch).1 = s) := by
  have hl1 : lookupKV (removeTask s.tasks id).1 id = none :=
    removeTask_lookup_none s.tasks id
  refine ⟨?_, ?_, ?_, ?_⟩
  · intro hw
    cases hok : scheduleOk sch with
    | false => simp [startPair, hw, addTask, hl1, hok]
    | true =>
      by_cases hs : sch.stype = SchedType.watcher <;>
        simp [startPair, hw, addTask, hl1, hok, hs]
  · intro hw hok
    by_cases hs : sch.stype = SchedType.watcher <;>
      simp [startPair, hw, addTask, hl1, hok, hs]
  · intro hw hok
    constructor
    · simp [startPair, hw, addTask, hl1, hok]
    · simp [startPair, hw, addTask, hl1, hok]
  · intro hsome hw
    constructor
    · simp [startPair, hw, addTask, hsome]
    · simp [startPair, hw, addTask, hsome]

/-- Witness for `startPair_restart_behavior`: restarting a watcher pair
with a cron schedule that fails to register strips the worker and task
and reports the schedule failure, not a duplicate. -/
theorem startPair_restart_behavior_witness :
    (startPair ⟨[("p", ⟨"d", SchedType.watcher, true⟩)], ["p"]⟩ "p" "d"
        ⟨SchedType.cron, false⟩).2 = some MgrErr.scheduleFailed ∧
    (startPair ⟨[("p", ⟨"d", SchedType.watcher, true⟩)], ["p"]⟩ "p" "d"
        ⟨SchedType.cron, false⟩).1
      = ⟨(removeTask [("p", ⟨"d", SchedType.watcher, true⟩)] "p").1,
         removeWorker ["p"] "p"⟩ :=
  (startPair_restart_behavior ⟨[("p", ⟨"d", SchedType.watcher, true⟩)], ["p"]⟩
    "p" "d" ⟨SchedType.cron, false⟩).2.2.1 (by decide) (by decide)

/-- The temp path `dst + ".tmp"` is never `dst` itself. -/
theorem tmp_ne_dst (d : String) : ¬(d ++ ".tmp" = d) := by
  intro h
  have hlen := congrArg String.length h
  rw [String.length_append] at hlen
  have h4 : (".tmp" : String).length = 4 := rfl
  rw [h4] at hlen
  omega

/-- C2: error handling of `copyAtomic`.  Whenever the call returns an
error — source unreadable, temp not creatable, copy failure (even after
a partial write), close failure, or rename failure — the temp file
`dst.tmp` is gone and `dst` still holds exactly its prior contents (or
is still absent); and on success `dst` holds the fully written source
contents, installed only by the single atomic rename. -/
theorem copyAtomic_failure_cleanup (fs : FS) (src dst : String) (plan : FailPlan)
    (hpre : lookupKV fs (dst ++ ".tmp") = none) :
    ((copyAtomicRun fs src dst plan).2.1 = none →
      lookupKV (copyAtomicRun fs src dst plan).1 (dst ++ ".tmp") = none ∧
      lookupKV (copyAtomicRun fs src dst plan).1 dst = lookupKV fs dst) ∧
    (∀ n, (copyAtomicRun fs src dst plan).2.1 = some n →
      ∃ info, lookupKV fs src = some info ∧ n = info.content.length ∧
        lookupKV (copyAtomicRun fs src dst plan).1 dst
          = some ⟨info.content, info.mtimeNs⟩) := by
  have hne : ¬(dst = dst ++ ".tmp") := fun h => tmp_ne_dst dst h.symm
  unfold copyAtomicRun
  cases hlk : lookupKV fs src with
  | none => exact ⟨fun _ => ⟨hpre, rfl⟩, by simp⟩
  | some info =>
    by_cases ho : plan.openFail = true
    · simp [ho, hpre]
    · by_cases hcr : plan.createFail = true
      · simp [ho, hcr, hpre]
      · by_cases hcp : plan.copyFail = true
        · simp [ho, hcr, hcp, lookupKV_eraseKV, lookupKV_setKV, hne]
        · by_cases hcl : plan.closeFail = true
          · simp [ho, hcr, hcp, hcl, lookupKV_eraseKV, lookupKV_setKV, hne]
          · by_cases hrn : plan.renameFail = true
            · simp [ho, hcr, hcp, hcl, hrn, lookupKV_eraseKV, lookupKV_setKV, hne]
            · refine ⟨by simp [ho, hcr, hcp, hcl, hrn], ?_⟩
              intro n hn
              simp only [ho, hcr, hcp, hcl, hrn, Bool.false_eq_true, if_neg,
                if_false] at hn ⊢
              refine ⟨info, rfl, ?_, ?_⟩
              · exact (Option.some_injective _ hn).symm
              · simp [lookupKV_setKV]

/-- Witness for `copyAtomic_failure_cleanup`: one file `s`, a failing
rename; afterwards the temp is absent and `d` is still absent. -/
theorem copyAtomic_failure_cleanup_witness :
    lookupKV (copyAtomicRun [("s", ⟨[1, 2], 5⟩)] "s" "d"
        ⟨false, false, false, 0, false, true⟩).1 ("d" ++ ".tmp") = none ∧
    lookupKV (copyAtomicRun [("s", ⟨[1, 2], 5⟩)] "s" "d"
        ⟨false, false, false, 0, false, true⟩).1 "d"
      = lookupKV [("s", ⟨[1, 2], 5⟩)] "d" :=
  (copyAtomic_failure_cleanup [("s", ⟨[1, 2], 5⟩)] "s" "d"
    ⟨false, false, false, 0, false, true⟩ (by decide)).1 (by decide)

/-- C9: atomicity towards concurrent readers.  Every filesystem state a
reader can observe during a `copyAtomic` run — under any injected
failure, including mid-copy states where the temp file holds a partial
prefix — shows `dst` either with its pre-call contents or with the
complete post-call contents; never a truncated or half-written `dst`. -/
theorem copyAtomic_no_torn_reads (fs : FS) (src dst : String) (plan : FailPlan)
    (s : FS) (hs : s ∈ (copyAtomicRun fs src dst plan).2.2) :
    lookupKV s dst = lookupKV fs dst ∨
    ∃ info, lookupKV fs src = some info ∧
      lookupKV s dst = some ⟨info.content, info.mtimeNs⟩ := by
  have hne : ¬(dst = dst ++ ".tmp") := fun h => tmp_ne_dst dst h.symm
  unfold copyAtomicRun at hs
  cases hlk : lookupKV fs src with
  | none =>
    rw [hlk] at hs
    simp only [List.mem_singleton] at hs
    subst hs
    exact Or.inl rfl
  | some info =>
    rw [hlk] at hs
    by_cases ho : plan.openFail = true
    · simp only [ho, if_true, List.mem_singleton] at hs
      subst hs; exact Or.inl rfl
    · by_cases hcr : plan.createFail = true
      · simp only [ho, hcr, Bool.false_eq_true, if_neg, if_false, if_true,
          List.mem_singleton] at hs
        subst hs; exact Or.inl rfl
      · by_cases hcp : plan.copyFail = true
        · simp only [ho, hcr, hcp, Bool.false_eq_true, if_neg, if_false, if_true,
            List.mem_cons, List.mem_singleton, List.not_mem_nil, or_false] at hs
          rcases hs with rfl | rfl | rfl | rfl <;>
            simp [lookupKV_eraseKV, lookupKV_setKV, hne]
        · by_cases hcl : plan.closeFail = true
          · simp only [ho, hcr, hcp, hcl, Bool.false_eq_true, if_neg, if_false,
              if_true, List.mem_cons, List.mem_singleton, List.not_mem_nil,
              or_false] at hs
            rcases hs with rfl | rfl | rfl | rfl | rfl <;>
              simp [lookupKV_eraseKV, lookupKV_setKV, hne]
          · by_cases hrn : plan.renameFail = true
            · simp only [ho, hcr, hcp, hcl, hrn, Bool.false_eq_true, if_neg,
                if_false, if_true, List.mem_cons, List.mem_singleton,
                List.not_mem_nil, or_false] at hs
              rcases hs with rfl | rfl | rfl | rfl | rfl | rfl <;>
                simp [lookupKV_eraseKV, lookupKV_setKV, hne]
            · simp only [ho, hcr, hcp, hcl, hrn, Bool.false_eq_true, if_neg,
                if_false, List.mem_cons, List.mem_singleton, List.not_mem_nil,
                or_false] at hs
              rcases hs with rfl | rfl | rfl | rfl | rfl | rfl
              · exact Or.inl rfl
              · exact Or.inl (by simp [lookupKV_setKV, hne])
              · exact Or.inl (by simp [lookupKV_setKV, hne])
              · exact Or.inl (by simp [lookupKV_setKV, hne])
              · exact Or.inl (by simp [lookupKV_setKV, hne])
              · exact Or.inr ⟨info, rfl, by simp [lookupKV_setKV]⟩

/-- Witness for `copyAtomic_no_torn_reads`: the final state of a
successful run is in the observable trace and shows the new contents. -/
theorem copyAtomic_no_torn_reads_witness :
    lookupKV (copyAtomicRun [("s", ⟨[1, 2], 5⟩)] "s" "d"
        ⟨false, false, false, 1, false, false⟩).1 "d"
      = lookupKV [("s", ⟨[1, 2], 5⟩)] "d" ∨
    ∃ info, lookupKV ([("s", ⟨[1, 2], 5⟩)] : FS) "s" = some info ∧
      lookupKV (copyAtomicRun [("s", ⟨[1, 2], 5⟩)] "s" "d"
          ⟨false, false, false, 1, false, false⟩).1 "d"
        = some ⟨info.content, info.mtimeNs⟩ :=
  copyAtomic_no_torn_reads [("s", ⟨[1, 2], 5⟩)] "s" "d"
    ⟨false, false, false, 1, false, false⟩
    (copyAtomicRun [("s", ⟨[1, 2], 5⟩)] "s" "d"
      ⟨false, false, false, 1, false, false⟩).1 (by decide)

/-- One `syncStep` affects presence only at its own key: afterwards a path
is present iff it was present before or this entry's key matches and the
composite filter accepts it (an unchanged file was already present). -/
theorem isSome_syncStep (pm : String → String → Bool) (pair : SyncPair)
    (tgt : FS) (e : String × FileInfo) (p : String) :
    (lookupKV (syncStep pm pair tgt e) p).isSome =
      ((lookupKV tgt p).isSome ||
        (decide (e.1 = p) &&
          shouldSyncFile pm pair (joinPath pair.source e.1) e.1)) := by
  unfold syncStep
  by_cases hf : shouldSyncFile pm pair (joinPath pair.source e.1) e.1 = true
  · by_cases hc : isFileChanged pair tgt e.1 e.2 = true
    · simp only [hf, hc, Bool.not_true, Bool.false_eq_true, if_neg, if_false]
      rw [lookupKV_setKV]
      by_cases hpe : p = e.1
      · subst hpe; simp [hf]
      · have hep : ¬e.1 = p := fun h => hpe h.symm
        simp [hpe, hep]
    · have hsome : (lookupKV tgt e.1).isSome = true := by
        unfold isFileChanged at hc
        cases hl : lookupKV tgt e.1 with
        | none => rw [hl] at hc; simp at hc
        | some ti => rfl
      simp only [hf, hc, Bool.not_true, Bool.not_false, if_true, if_false,
        Bool.false_eq_true, if_neg]
      by_cases hep : e.1 = p
      · rw [← hep, hsome]; simp [hf]
      · simp [hep]
  · simp [hf]

/-- Presence after the copy phase: a path is present iff it was present in
the target before, or some source entry has that path and passes the
composite filter. -/
theorem isSome_syncSourceToTarget (pm : String → String → Bool) (pair : SyncPair) :
    ∀ (src tgt : FS) (p : String),
    (lookupKV (syncSourceToTarget pm pair src tgt) p).isSome =
      ((lookupKV tgt p).isSome ||
        src.any (fun e => decide (e.1 = p) &&
          shouldSyncFile pm pair (joinPath pair.source e.1) e.1)) := by
  intro src
  induction src with
  | nil => intro tgt p; simp [syncSourceToTarget]
  | cons e rest ih =>
    intro tgt p
    have hstep := isSome_syncStep pm pair tgt e p
    calc (lookupKV (syncSourceToTarget pm pair (e :: rest) tgt) p).isSome
        = (lookupKV (syncSourceToTarget pm pair rest (syncStep pm pair tgt e)) p).isSome := rfl
      _ = ((lookupKV (syncStep pm pair tgt e) p).isSome ||
            rest.any (fun x => decide (x.1 = p) &&
              shouldSyncFile pm pair (joinPath pair.source x.1) x.1)) :=
          ih (syncStep pm pair tgt e) p
      _ = _ := by rw [hstep]; simp [List.any_cons, Bool.or_assoc]

/-- A key occurs among the entries iff the lookup finds it. -/
theorem any_key_eq_isSome (l : FS) (p : String) :
    (l.any (fun e => decide (e.1 = p))) = (lookupKV l p).isSome := by
  induction l with
  | nil => simp [lookupKV]
  | cons e rest ih => by_cases hep : e.1 = p <;> simp [lookupKV, hep, ih]

/-- A per-key predicate over the entries collapses to lookup presence
times the predicate at the key. -/
theorem any_key_and_filter (l : FS) (p : String) (f : String → Bool) :
    (l.any (fun e => decide (e.1 = p) && f e.1))
      = ((lookupKV l p).isSome && f p) := by
  induction l with
  | nil => simp [lookupKV]
  | cons e rest ih =>
    by_cases hep : e.1 = p
    · subst hep
      simp only [List.any_cons, decide_eq_true_eq, lookupKV, if_pos rfl, ih,
        Option.isSome_some, Bool.true_and]
      cases f e.1 <;> simp
    · simp [List.any_cons, lookupKV, hep, ih]

/-- Presence after the mirror-deletion fold over a snapshot of entries:
a path is cleared exactly when its source counterpart is missing and the
path occurs among the walked entries; everything else keeps its lookup. -/
theorem lookupKV_deleteFold (src : FS) :
    ∀ (entries : List (String × FileInfo)) (tgt : FS) (p : String),
    lookupKV (entries.foldl (deleteStep src) tgt) p =
      if ((lookupKV src p).isNone && entries.any (fun e => decide (e.1 = p))) then none
      else lookupKV tgt p := by
  intro entries
  induction entries with
  | nil => intro tgt p; simp
  | cons e rest ih =>
    intro tgt p
    have hfold : (e :: rest).foldl (deleteStep src) tgt
        = rest.foldl (deleteStep src) (deleteStep src tgt e) := rfl
    rw [hfold, ih (deleteStep src tgt e) p]
    by_cases hep : e.1 = p
    · subst hep
      cases hsrc : (lookupKV src e.1).isNone
      · simp [deleteStep, hsrc]
      · have herase : deleteStep src tgt e = eraseKV tgt e.1 := by
          simp [deleteStep, hsrc]
        rw [herase, lookupKV_eraseKV]
        simp [hsrc]
    · have hpe : ¬p = e.1 := fun h => hep h.symm
      have hlook : lookupKV (deleteStep src tgt e) p = lookupKV tgt p := by
        unfold deleteStep
        cases hsrc : (lookupKV src e.1).isNone
        · simp [hsrc]
        · simp [hsrc, lookupKV_eraseKV, hpe]
      rw [hlook]
      have hany : ((e :: rest).any fun x => decide (x.1 = p))
          = (rest.any fun x => decide (x.1 = p)) := by
        simp [List.any_cons, hep]
      rw [hany]

/-- Presence after `mirrorDeletions`: a target file survives iff its
source counterpart exists. -/
theorem isSome_mirrorDeletions (src tgt : FS) (p : String) :
    (lookupKV (mirrorDeletions src tgt) p).isSome
      = ((lookupKV tgt p).isSome && (lookupKV src p).isSome) := by
  unfold mirrorDeletions
  rw [lookupKV_deleteFold, any_key_eq_isSome]
  cases hs : lookupKV src p <;> cases ht : lookupKV tgt p <;> simp

/-- C1 counterexample: with `mirror_deletes` on, a target file whose
source counterpart exists but is REJECTED by the include filter survives
the sync — `mirrorDeletions` checks only source existence, not the
filter — so the final target is not the filtered source set. -/
theorem mirror_keeps_filtered_target_file :
    (lookupKV (performSync (fun _ _ => false)
        ⟨"p", "srcdir", "dstdir", [".jpg"], [], "mtime", true⟩
        [("a.txt", ⟨[104, 105], 0⟩)] [("a.txt", ⟨[104, 105], 0⟩)]) "a.txt").isSome
      = true ∧
    shouldSyncFile (fun _ _ => false)
        ⟨"p", "srcdir", "dstdir", [".jpg"], [], "mtime", true⟩
        (joinPath "srcdir" "a.txt") "a.txt" = false := by
  constructor <;> decide

/-- C1 amended: after a completed `compare_and_sync` with
`mirror_deletes=true`, a path is in the target exactly when it exists in
the source AND (it passes the include/exclude filter OR it was already
in the target before the run).  Mirror deletion removes exactly the
target files lacking a source counterpart, regardless of the filter. -/
theorem performSync_mirror_file_set (pm : String → String → Bool) (pair : SyncPair)
    (src tgt : FS) (p : String) (hm : pair.mirrorDeletes = true) :
    (lookupKV (performSync pm pair src tgt) p).isSome =
      ((lookupKV src p).isSome &&
        (shouldSyncFile pm pair (joinPath pair.source p) p ||
          (lookupKV tgt p).isSome)) := by
  unfold performSync
  rw [hm]
  simp only [if_true]
  rw [isSome_mirrorDeletions, isSome_syncSourceToTarget]
  have hany := any_key_and_filter src p
    (fun q => shouldSyncFile pm pair (joinPath pair.source q) q)
  simp only at hany
  rw [hany]
  cases hA : (lookupKV src p).isSome <;> cases hB : (lookupKV tgt p).isSome <;>
    cases hC : shouldSyncFile pm pair (joinPath pair.source p) p <;> simp

/-- Witness for `performSync_mirror_file_set` at the concrete trees of the
counterexample configuration. -/
theorem performSync_mirror_file_set_witness :
    (lookupKV (performSync (fun _ _ => false)
        ⟨"p", "srcdir", "dstdir", [".jpg"], [], "mtime", true⟩
        [("a.txt", ⟨[104, 105], 0⟩)] [("b.txt", ⟨[104], 7⟩)]) "a.txt").isSome
      = ((lookupKV ([("a.txt", ⟨[104, 105], 0⟩)] : FS) "a.txt").isSome &&
        (shouldSyncFile (fun _ _ => false)
            ⟨"p", "srcdir", "dstdir", [".jpg"], [], "mtime", true⟩
            (joinPath "srcdir" "a.txt") "a.txt" ||
          (lookupKV ([("b.txt", ⟨[104], 7⟩)] : FS) "a.txt").isSome)) :=
  performSync_mirror_file_set (fun _ _ => false)
    ⟨"p", "srcdir", "dstdir", [".jpg"], [], "mtime", true⟩
    [("a.txt", ⟨[104, 105], 0⟩)] [("b.txt", ⟨[104], 7⟩)] "a.txt" rfl
